import Mathlib

/-!
Verification of the `enumn` derive macro (src/pa.rs) against its
natural-language specification.

The crate is a single procedural macro `derive(N)`.  Its `derive` function
(src/pa.rs, lines 42-112):
  * extracts the enum variants, and calls the Rust `panic!` macro with
    message "input must be an enum" when the input is a struct or a union
    (lines 45-48);
  * scans the variants in declaration order and, at the FIRST variant whose
    fields are not `Fields::Unit`, returns the token stream of a compile
    error "enumn: variant with data is not supported" spanned at that
    variant's identifier (lines 50-59);
  * resolves the representation from the first `repr` attribute:
    a recognized fixed-width integer ident gives `Some(tokens-of-that-type)`,
    an unrecognized ident or unparsable argument gives `None`, and a missing
    `repr` attribute gives `Some(tokens-of-i64)` (lines 61-74);
  * emits `fn n(value: REPRTYPE)` when the resolution is `Some`, and the
    generic `fn n<REPR: Into<i64>>(value: REPR)` (dispatching on
    `<REPR as Into<i64>>::into(value)`) when it is `None` (lines 76-84);
  * emits, for each variant `V` of enum `E`, a constant
    `const V: #repr = E::V as #repr;` and a match arm
    `discriminant::V => Some(E::V)`, followed by a final `_ => None` arm
    (lines 86-111).  Note that when the resolution is `None` the interpolated
    `#repr` produces no tokens at all, so the emitted constants read
    `const V: = E::V as ;`, which is not valid Rust.

The embedding below mirrors that function.  Rust's own discriminant
assignment (which the generated `E::V as repr` constants evaluate under the
host compiler) is modelled by `discsFrom`: the first variant without an
explicit discriminant gets 0, an explicit literal is used as written, and
each later variant without a literal gets the previous value plus one.  The
`as` cast of an integer into a fixed-width type is modelled by `castTo`
(two's-complement wrap-around).
-/

namespace Enumn

/-- The closed set of fixed-width integer type names recognized at
src/pa.rs lines 65-66.  `usize` and `isize` are modelled as 64-bit. -/
inductive ReprType
  | u8 | u16 | u32 | u64 | u128 | usize
  | i8 | i16 | i32 | i64 | i128 | isize
  deriving DecidableEq

/-- Bit width of a representation type (pointer width taken as 64). -/
def width : ReprType → Nat
  | .u8 => 8 | .u16 => 16 | .u32 => 32 | .u64 => 64 | .u128 => 128
  | .usize => 64
  | .i8 => 8 | .i16 => 16 | .i32 => 32 | .i64 => 64 | .i128 => 128
  | .isize => 64

/-- Whether the representation type is signed. -/
def isSigned : ReprType → Bool
  | .i8 | .i16 | .i32 | .i64 | .i128 | .isize => true
  | _ => false

/-- Rust's `as` cast of a mathematical integer into a fixed-width integer
type: two's-complement wrap-around into the type's value range. -/
def castTo (r : ReprType) (d : Int) : Int :=
  if isSigned r then
    (d + 2 ^ (width r - 1)) % 2 ^ width r - 2 ^ (width r - 1)
  else
    d % 2 ^ width r

/-- `syn::Fields` of one variant: unit, named fields, or positional
(unnamed) fields. -/
inductive Payload
  | unit | named | unnamed
  deriving DecidableEq

/-- One enum variant as seen by the macro: its identifier (also standing in
for its source span), its fields kind, and its explicit discriminant
literal, when the source declaration assigns one. -/
structure Variant where
  ident : String
  fields : Payload
  disc : Option Int
  deriving DecidableEq

/-- Default variant used only as the `List.getD` fallback value. -/
def dfltVariant : Variant := ⟨"", Payload.unit, none⟩

/-- One attribute on the input: its path, and the result of
`attr.parse_args::<Ident>()` (`some name` when the argument list parses as a
single identifier, `none` when that parse fails). -/
structure Attr where
  path : String
  argIdent : Option String
  deriving DecidableEq

/-- `syn::Data`: the shape of the derive input. -/
inductive Data
  | enum (variants : List Variant)
  | struct
  | union
  deriving DecidableEq

/-- `syn::DeriveInput`: the parsed macro input. -/
structure DeriveInput where
  ident : String
  attrs : List Attr
  data : Data
  deriving DecidableEq

/-- The string match at src/pa.rs lines 64-68: which attribute argument
names are accepted as a representation type. -/
def recognizeRepr : String → Option ReprType
  | "u8" => some .u8 | "u16" => some .u16 | "u32" => some .u32
  | "u64" => some .u64 | "u128" => some .u128 | "usize" => some .usize
  | "i8" => some .i8 | "i16" => some .i16 | "i32" => some .i32
  | "i64" => some .i64 | "i128" => some .i128 | "isize" => some .isize
  | _ => none

/-- The `repr` resolution of src/pa.rs lines 61-74.  `some r` means the
emitted function takes exactly the concrete type `r` (and `r` is the type
ascribed to the discriminant constants); `none` means the generic
`fn n<REPR: Into<i64>>` signature is emitted and the `#repr` interpolation
in the constants produces no tokens. -/
def resolveRepr (attrs : List Attr) : Option ReprType :=
  match attrs.find? (fun a => a.path == "repr") with
  | some attr =>
    match attr.argIdent with
    | some name => recognizeRepr name
    | none => none
  | none => some .i64

/-- Rust's discriminant assignment, which the emitted `E::V as repr`
constants evaluate under: `next` is the value the next variant receives
when it has no explicit discriminant; an explicit literal is used as
written and numbering resumes after it. -/
def discsFrom : Int → List Variant → List Int
  | _, [] => []
  | next, v :: vs =>
    v.disc.getD next :: discsFrom (v.disc.getD next + 1) vs

/-- The native discriminant of every variant, in declaration order. -/
def rustDiscs (vs : List Variant) : List Int := discsFrom 0 vs

/-- The macro's successful output: the enum identifier, the representation
resolution (`some r` = concrete signature over `r`; `none` = generic
`Into<i64>` signature with no type tokens on the constants), and one
`(variant identifier, native discriminant)` pair per variant, in declaration
order — the emitted constant for the pair `(V, d)` is `E::V as repr`, whose
value under the host compiler is `castTo r d` when the resolution is
`some r`. -/
structure GeneratedConversion where
  enumIdent : String
  mode : Option ReprType
  entries : List (String × Int)
  deriving DecidableEq

/-- Outcome of one macro invocation.  `panicked` models the Rust `panic!`
macro (an unwind out of the macro code, not a value returned to the caller);
`compileError` models returning `Error::new(span, msg).to_compile_error()`
as the macro's output token stream (failure returned as data, carrying one
span and one message). -/
inductive DeriveResult
  | panicked (msg : String)
  | compileError (spanIdent : String) (msg : String)
  | ok (g : GeneratedConversion)
  deriving DecidableEq

/-- The variant check of src/pa.rs lines 51-58: `true` exactly when the
variant's fields are named or unnamed (not unit). -/
def hasData (v : Variant) : Bool :=
  match v.fields with
  | .unit => false
  | .named => true
  | .unnamed => true

/-- The `derive` function of src/pa.rs lines 42-112, stage by stage:
struct/union input panics; otherwise the variants are scanned in order and
the first one with data aborts with a single compile error at its
identifier; otherwise the representation is resolved and the conversion
is emitted with one entry per variant in declaration order. -/
def derive (input : DeriveInput) : DeriveResult :=
  match input.data with
  | .struct => .panicked "input must be an enum"
  | .union => .panicked "input must be an enum"
  | .enum variants =>
    match variants.find? hasData with
    | some v => .compileError v.ident "enumn: variant with data is not supported"
    | none =>
      .ok ⟨input.ident, resolveRepr input.attrs,
           (variants.map Variant.ident).zip (rustDiscs variants)⟩

/-- Semantics of the emitted `match` (src/pa.rs lines 105-108) for a
concrete resolution `r`: the arms compare the scrutinee against the
constants `E::V as r` in declaration order, first match wins, and the final
arm gives `none`. -/
def firstMatch (r : ReprType) : List (String × Int) → Int → Option String
  | [], _ => none
  | (id, d) :: rest, v =>
    if castTo r d = v then some id else firstMatch r rest v

/-- The representation resolution recorded in a successful result, when
there is one. -/
def resultMode : DeriveResult → Option (Option ReprType)
  | .ok g => some g.mode
  | _ => none

/-- Example: `enum E { A, B }` with no attributes. -/
def vsAB : List Variant := [⟨"A", .unit, none⟩, ⟨"B", .unit, none⟩]

/-- The derive input for `enum E { A, B }` with no attributes. -/
def exAB : DeriveInput := ⟨"E", [], .enum vsAB⟩

/-- The generated conversion for `exAB`. -/
def gAB : GeneratedConversion := ⟨"E", some .i64, [("A", 0), ("B", 1)]⟩

/-- If no variant carries data, `derive` succeeds with one table entry per
variant in declaration order. -/
theorem derive_ok_of_no_payload (name : String) (attrs : List Attr)
    (vs : List Variant) (h : vs.find? hasData = none) :
    derive ⟨name, attrs, .enum vs⟩ =
      .ok ⟨name, resolveRepr attrs, (vs.map Variant.ident).zip (rustDiscs vs)⟩ := by
  simp [derive, h]

/-- Inversion: a successful `derive` run determines the output completely
from the input. -/
theorem derive_ok_inv (name : String) (attrs : List Attr) (vs : List Variant)
    (g : GeneratedConversion) (hok : derive ⟨name, attrs, .enum vs⟩ = .ok g) :
    g = ⟨name, resolveRepr attrs, (vs.map Variant.ident).zip (rustDiscs vs)⟩ := by
  unfold derive at hok
  cases hfind : vs.find? hasData with
  | some v => simp [hfind] at hok
  | none =>
    simp [hfind] at hok
    exact hok.symm

/-- Claim C1, counterexample.  The claim says that with no representation
annotation the generated function is in "generic convertible" mode.  In the
code (src/pa.rs line 73) the absent-annotation case resolves to
`Some(quote!(i64))`, a concrete `fn n(value: i64)` signature: for
`enum E { A, B }` with no attributes the recorded mode is `some i64`, not
the generic mode `none`. -/
theorem default_mode_not_generic :
    resultMode (derive exAB) = some (some ReprType.i64) ∧
    resultMode (derive exAB) ≠ some (none : Option ReprType) := by
  decide

/-- Claim C1, amended.  With no `repr` attribute the resolution is the
concrete type `i64`, the signature accepts exactly 64-bit signed input, and
for `enum E { A, B }` the dispatch satisfies n(0)=Some(A), n(1)=Some(B),
n(2)=None, n(-1)=None. -/
theorem default_repr_is_i64 (attrs : List Attr)
    (habs : attrs.find? (fun a => a.path == "repr") = none) :
    resolveRepr attrs = some ReprType.i64 ∧
    derive ⟨"E", attrs, .enum vsAB⟩ = .ok ⟨"E", some ReprType.i64, [("A", 0), ("B", 1)]⟩ ∧
    firstMatch ReprType.i64 [("A", 0), ("B", 1)] 0 = some "A" ∧
    firstMatch ReprType.i64 [("A", 0), ("B", 1)] 1 = some "B" ∧
    firstMatch ReprType.i64 [("A", 0), ("B", 1)] 2 = none ∧
    firstMatch ReprType.i64 [("A", 0), ("B", 1)] (-1) = none := by
  have hres : resolveRepr attrs = some ReprType.i64 := by
    simp [resolveRepr, habs]
  refine ⟨hres, ?_, by decide, by decide, by decide, by decide⟩
  rw [derive_ok_of_no_payload _ _ _ (by decide)]
  rw [hres]
  decide

/-- Claim C1, witness for `default_repr_is_i64` at the empty attribute
list. -/
theorem default_repr_is_i64_inst :
    resolveRepr [] = some ReprType.i64 ∧
    derive ⟨"E", [], .enum vsAB⟩ = .ok ⟨"E", some ReprType.i64, [("A", 0), ("B", 1)]⟩ ∧
    firstMatch ReprType.i64 [("A", 0), ("B", 1)] 0 = some "A" ∧
    firstMatch ReprType.i64 [("A", 0), ("B", 1)] 1 = some "B" ∧
    firstMatch ReprType.i64 [("A", 0), ("B", 1)] 2 = none ∧
    firstMatch ReprType.i64 [("A", 0), ("B", 1)] (-1) = none :=
  default_repr_is_i64 [] rfl

/-- Claim C2.  The claim says an unrecognized representation annotation is
treated as absent, producing an identical conversion.  In the code the two
cases differ: `#[repr(C)] enum E { A }` resolves to `none` (the generic
`fn n<REPR: Into<i64>>` signature, whose discriminant constants are emitted
with no type tokens — `const A: = E::A as ;` — which is not valid Rust),
while the same enum with no attribute resolves to the concrete `i64`
signature.  The two outputs are not equal. -/
theorem unrecognized_repr_diverges :
    derive ⟨"E", [⟨"repr", some "C"⟩], .enum [⟨"A", .unit, none⟩]⟩ =
      .ok ⟨"E", none, [("A", 0)]⟩ ∧
    derive ⟨"E", [], .enum [⟨"A", .unit, none⟩]⟩ =
      .ok ⟨"E", some ReprType.i64, [("A", 0)]⟩ ∧
    derive ⟨"E", [⟨"repr", some "C"⟩], .enum [⟨"A", .unit, none⟩]⟩ ≠
      derive ⟨"E", [], .enum [⟨"A", .unit, none⟩]⟩ := by
  decide

/-- Claim C3, counterexample.  For `enum E { V1(u8), V2 { x: u8 } }` — two
variants with data — the code returns after constructing a single error at
the FIRST offending variant (src/pa.rs line 56, a `return` inside the scan
loop): the result carries one diagnostic naming `V1` only, not one
diagnostic per offending tag. -/
theorem two_payload_variants_one_diagnostic :
    derive ⟨"E", [], .enum [⟨"V1", .unnamed, none⟩, ⟨"V2", .named, none⟩]⟩ =
      .compileError "V1" "enumn: variant with data is not supported" := by
  decide

/-- Claim C3, amended.  When the variant scan finds a variant with data,
generation fails with exactly one diagnostic — "enumn: variant with data is
not supported", spanned at the first offending variant in declaration order
— and produces no conversion output. -/
theorem payload_variant_first_error (name : String) (attrs : List Attr)
    (vs : List Variant) (v : Variant) (hfind : vs.find? hasData = some v) :
    derive ⟨name, attrs, .enum vs⟩ =
      .compileError v.ident "enumn: variant with data is not supported" ∧
    ∀ g, derive ⟨name, attrs, .enum vs⟩ ≠ .ok g := by
  have h1 : derive ⟨name, attrs, .enum vs⟩ =
      .compileError v.ident "enumn: variant with data is not supported" := by
    simp [derive, hfind]
  refine ⟨h1, ?_⟩
  intro g hg
  rw [h1] at hg
  simp at hg

/-- Claim C3, witness for `payload_variant_first_error`: the two-offender
enum fails at `V1` and yields no output. -/
theorem payload_variant_first_error_inst :
    derive ⟨"E", [], .enum [⟨"V1", .unnamed, none⟩, ⟨"V2", .named, none⟩]⟩ =
      .compileError "V1" "enumn: variant with data is not supported" ∧
    ∀ g, derive ⟨"E", [], .enum [⟨"V1", .unnamed, none⟩, ⟨"V2", .named, none⟩]⟩ ≠
      .ok g :=
  payload_variant_first_error "E" [] [⟨"V1", .unnamed, none⟩, ⟨"V2", .named, none⟩]
    ⟨"V1", .unnamed, none⟩ (by decide)

/-- Claim C4, counterexample.  The claim says a non-enum input fails with a
structured diagnostic returned as data.  The code instead calls the Rust
`panic!` macro (src/pa.rs line 47): on a struct input the run ends in the
`panicked` outcome, not in a `compileError` value. -/
theorem non_enum_input_panic_value :
    derive ⟨"S", [], Data.struct⟩ = .panicked "input must be an enum" := by
  decide

/-- Claim C4, amended.  A struct or union input aborts generation with the
message "input must be an enum" raised through the `panic!` macro — an
unwinding fault out of the macro code, not a diagnostic returned as data —
and no conversion output is produced. -/
theorem non_enum_input_panics (name : String) (attrs : List Attr) :
    derive ⟨name, attrs, Data.struct⟩ = .panicked "input must be an enum" ∧
    derive ⟨name, attrs, Data.union⟩ = .panicked "input must be an enum" :=
  ⟨rfl, rfl⟩

/-- Claim C8.  A recognized `repr` annotation resolves to exactly that
type: with `#[repr(u8)] enum E { Low = 10, High }` the signature takes
exactly the 8-bit unsigned type (`width` 8, unsigned), and the dispatch
satisfies n(10)=Some(Low), n(11)=Some(High), n(9)=None. -/
theorem repr_override_u8 :
    recognizeRepr "u8" = some ReprType.u8 ∧
    derive ⟨"E", [⟨"repr", some "u8"⟩],
        .enum [⟨"Low", .unit, some 10⟩, ⟨"High", .unit, none⟩]⟩ =
      .ok ⟨"E", some ReprType.u8, [("Low", 10), ("High", 11)]⟩ ∧
    width ReprType.u8 = 8 ∧
    isSigned ReprType.u8 = false ∧
    firstMatch ReprType.u8 [("Low", 10), ("High", 11)] 10 = some "Low" ∧
    firstMatch ReprType.u8 [("Low", 10), ("High", 11)] 11 = some "High" ∧
    firstMatch ReprType.u8 [("Low", 10), ("High", 11)] 9 = none := by
  decide

/-- The discriminant list has one entry per variant. -/
theorem discsFrom_length (a : Int) (vs : List Variant) :
    (discsFrom a vs).length = vs.length := by
  induction vs generalizing a with
  | nil => rfl
  | cons v rest ih => simp [discsFrom, ih]

/-- `getD` commutes with `map` at in-bounds indices. -/
theorem getD_map_of_lt {α β : Type} (f : α → β) (l : List α) (i : Nat)
    (da : α) (db : β) (h : i < l.length) :
    (l.map f).getD i db = f (l.getD i da) := by
  induction l generalizing i with
  | nil => simp at h
  | cons x xs ih =>
    cases i with
    | zero => simp
    | succ i =>
      simp only [List.map_cons, List.getD_cons_succ]
      exact ih i (by simpa using h)

/-- An in-bounds `getD` is a member of the list. -/
theorem getD_mem_of_lt {α : Type} (l : List α) (i : Nat) (d : α)
    (h : i < l.length) : l.getD i d ∈ l := by
  induction l generalizing i with
  | nil => simp at h
  | cons x xs ih =>
    cases i with
    | zero => simp
    | succ i =>
      rw [List.getD_cons_succ]
      exact List.mem_cons_of_mem x (ih i (by simpa using h))

/-- On a duplicate-free list, equal in-bounds `getD` values force equal
indices. -/
theorem nodup_getD_inj {α : Type} (l : List α) (d : α) (hnd : l.Nodup)
    (i j : Nat) (hi : i < l.length) (hj : j < l.length)
    (h : l.getD i d = l.getD j d) : i = j := by
  induction l generalizing i j with
  | nil => simp at hi
  | cons x xs ih =>
    rw [List.nodup_cons] at hnd
    cases i with
    | zero =>
      cases j with
      | zero => rfl
      | succ j =>
        rw [List.getD_cons_zero, List.getD_cons_succ] at h
        exact absurd (by rw [h]; exact getD_mem_of_lt xs j d (by simpa using hj))
          hnd.1
    | succ i =>
      cases j with
      | zero =>
        rw [List.getD_cons_succ, List.getD_cons_zero] at h
        exact absurd (by rw [← h]; exact getD_mem_of_lt xs i d (by simpa using hi))
          hnd.1
      | succ j =>
        rw [List.getD_cons_succ, List.getD_cons_succ] at h
        exact congrArg Nat.succ
          (ih hnd.2 i j (by simpa using hi) (by simpa using hj) h)

/-- `getD` of a zip of two lists, at an index in bounds of both. -/
theorem zip_getD_of_lt {α β : Type} (as : List α) (bs : List β) (i : Nat)
    (da : α) (db : β) (ha : i < as.length) (hb : i < bs.length) :
    (as.zip bs).getD i (da, db) = (as.getD i da, bs.getD i db) := by
  induction as generalizing bs i with
  | nil => simp at ha
  | cons a as ih =>
    cases bs with
    | nil => simp at hb
    | cons b bs =>
      cases i with
      | zero => simp [List.zip_cons_cons]
      | succ i =>
        simp only [List.zip_cons_cons, List.getD_cons_succ]
        exact ih bs i (by simpa using ha) (by simpa using hb)

/-- If no table entry's discriminant constant equals the scrutinee, the
emitted match falls through to its final arm. -/
theorem firstMatch_eq_none (r : ReprType) (ps : List (String × Int)) (v : Int)
    (h : ∀ p ∈ ps, castTo r p.2 ≠ v) : firstMatch r ps v = none := by
  induction ps with
  | nil => rfl
  | cons p rest ih =>
    obtain ⟨id, d⟩ := p
    have hp : castTo r d ≠ v := h (id, d) (by simp)
    simp only [firstMatch, if_neg hp]
    exact ih (fun q hq => h q (List.mem_cons_of_mem _ hq))

/-- When the resolved discriminant constants are pairwise distinct, the
emitted match sends the i-th entry's constant to the i-th entry's
identifier. -/
theorem firstMatch_getD (r : ReprType) (ps : List (String × Int)) (i : Nat)
    (hi : i < ps.length)
    (hnd : (ps.map (fun p => castTo r p.2)).Nodup) :
    firstMatch r ps (castTo r ((ps.getD i ("", 0)).2)) =
      some (ps.getD i ("", 0)).1 := by
  induction ps generalizing i with
  | nil => simp at hi
  | cons p rest ih =>
    obtain ⟨id, d⟩ := p
    rw [List.map_cons, List.nodup_cons] at hnd
    cases i with
    | zero => simp [firstMatch]
    | succ i =>
      have hi2 : i < rest.length := by simpa using hi
      have hmem : castTo r ((rest.getD i ("", 0)).2) ∈
          rest.map (fun p => castTo r p.2) :=
        List.mem_map_of_mem _ (getD_mem_of_lt rest i ("", 0) hi2)
      have hne : castTo r d ≠ castTo r ((rest.getD i ("", 0)).2) := by
        intro he
        exact hnd.1 (by rw [he]; exact hmem)
      rw [List.getD_cons_succ]
      simp only [firstMatch, if_neg hne]
      exact ih i hi2 hnd.2

/-- All widths are positive. -/
theorem width_pos (r : ReprType) : 0 < width r := by
  cases r <;> decide

/-- The `as` cast fixes every value in `[0, 2^(width-1))`, the range shared
by the signed and the unsigned reading of the type. -/
theorem castTo_of_nonneg_lt (r : ReprType) (d : Int) (h0 : 0 ≤ d)
    (h1 : d < 2 ^ (width r - 1)) : castTo r d = d := by
  have hw : width r - 1 + 1 = width r := Nat.succ_pred_eq_of_pos (width_pos r)
  have h2 : (2 : Int) ^ width r = 2 ^ (width r - 1) * 2 := by
    rw [← pow_succ, hw]
  have hP : (0 : Int) < 2 ^ (width r - 1) := by positivity
  unfold castTo
  cases hs : isSigned r with
  | false =>
    simp only [hs, Bool.false_eq_true, if_false]
    exact Int.emod_eq_of_lt h0 (by rw [h2]; linarith)
  | true =>
    simp only [hs, if_true]
    have ha : 0 ≤ d + 2 ^ (width r - 1) := by linarith
    have hb : d + 2 ^ (width r - 1) < 2 ^ width r := by rw [h2]; linarith
    rw [Int.emod_eq_of_lt ha hb]
    ring

/-- A variant with an explicit discriminant literal receives exactly that
value, wherever it sits in the declaration. -/
theorem discsFrom_getD_explicit (vs : List Variant) (a : Int) (j : Nat)
    (k : Int) (hj : j < vs.length)
    (hk : (vs.getD j dfltVariant).disc = some k) :
    (discsFrom a vs).getD j 0 = k := by
  induction vs generalizing a j with
  | nil => simp at hj
  | cons v rest ih =>
    cases j with
    | zero =>
      rw [List.getD_cons_zero] at hk
      simp [discsFrom, hk]
    | succ j =>
      rw [List.getD_cons_succ] at hk
      simp only [discsFrom, List.getD_cons_succ]
      exact ih (v.disc.getD a + 1) j (by simpa using hj) hk

/-- A run of variants without explicit discriminants starting at the head
is numbered consecutively from the incoming counter. -/
theorem discsFrom_getD_run (l : Nat) : ∀ (vs : List Variant) (a : Int),
    l < vs.length → (∀ t, t ≤ l → (vs.getD t dfltVariant).disc = none) →
    (discsFrom a vs).getD l 0 = a + l := by
  induction l with
  | zero =>
    intro vs a hl h
    cases vs with
    | nil => simp at hl
    | cons v rest =>
      have hv : v.disc = none := by simpa using h 0 (Nat.le_refl 0)
      simp [discsFrom, hv]
  | succ l ih =>
    intro vs a hl h
    cases vs with
    | nil => simp at hl
    | cons v rest =>
      have hv : v.disc = none := by simpa using h 0 (Nat.zero_le _)
      have step : (discsFrom a (v :: rest)).getD (l + 1) 0 =
          (discsFrom (a + 1) rest).getD l 0 := by
        simp [discsFrom, hv]
      rw [step, ih rest (a + 1) (by simpa using hl)
        (fun t ht => by simpa using h (t + 1) (by omega))]
      push_cast
      ring

/-- After a variant with explicit discriminant `k`, a run of variants
without explicit discriminants resumes numbering at `k + 1`: the variant
`l` places later receives `k + l`. -/
theorem discsFrom_getD_resume (j : Nat) : ∀ (vs : List Variant) (a : Int)
    (l : Nat) (k : Int), j + l < vs.length →
    (vs.getD j dfltVariant).disc = some k →
    (∀ t, 0 < t → t ≤ l → (vs.getD (j + t) dfltVariant).disc = none) →
    (discsFrom a vs).getD (j + l) 0 = k + l := by
  induction j with
  | zero =>
    intro vs a l k hl hk hrun
    cases vs with
    | nil => simp at hl
    | cons v rest =>
      have hv : v.disc = some k := by simpa using hk
      cases l with
      | zero => simp [discsFrom, hv]
      | succ m =>
        have step : (discsFrom a (v :: rest)).getD (0 + (m + 1)) 0 =
            (discsFrom (k + 1) rest).getD m 0 := by
          simp [discsFrom, hv]
        rw [step, discsFrom_getD_run m rest (k + 1) (by simpa using hl)
          (fun t ht => by simpa using hrun (t + 1) (by omega) (by omega))]
        push_cast
        ring
  | succ j ih =>
    intro vs a l k hl hk hrun
    cases vs with
    | nil => simp at hl
    | cons v rest =>
      have step : (discsFrom a (v :: rest)).getD (j + 1 + l) 0 =
          (discsFrom (v.disc.getD a + 1) rest).getD (j + l) 0 := by
        rw [show j + 1 + l = (j + l) + 1 by omega]
        simp [discsFrom]
      rw [step]
      exact ih rest (v.disc.getD a + 1) l k
        (by simp only [List.length_cons] at hl; omega)
        (by simpa using hk)
        (fun t ht hle => by
          have h3 := hrun t ht hle
          rw [show j + 1 + t = (j + t) + 1 by omega, List.getD_cons_succ] at h3
          exact h3)

/-- The dispatch table has one entry per variant. -/
theorem entries_length (vs : List Variant) :
    ((vs.map Variant.ident).zip (rustDiscs vs)).length = vs.length := by
  rw [List.length_zip, List.length_map, rustDiscs, discsFrom_length,
    Nat.min_self]

/-- The i-th table entry pairs the i-th variant's identifier with its
native discriminant. -/
theorem entries_getD (vs : List Variant) (i : Nat) (hi : i < vs.length) :
    ((vs.map Variant.ident).zip (rustDiscs vs)).getD i ("", 0) =
      ((vs.getD i dfltVariant).ident, (rustDiscs vs).getD i 0) := by
  rw [zip_getD_of_lt _ _ i "" 0 (by rw [List.length_map]; exact hi)
    (by rw [rustDiscs, discsFrom_length]; exact hi)]
  rw [getD_map_of_lt Variant.ident vs i dfltVariant "" hi]

/-- Projecting the identifiers back out of the table gives the variant
identifiers in declaration order. -/
theorem entries_map_fst (vs : List Variant) :
    ((vs.map Variant.ident).zip (rustDiscs vs)).map Prod.fst =
      vs.map Variant.ident :=
  List.map_fst_zip _ _
    (by simp [rustDiscs, discsFrom_length])

/-- Projecting the discriminants back out of the table gives the native
discriminant list. -/
theorem entries_map_snd (vs : List Variant) :
    ((vs.map Variant.ident).zip (rustDiscs vs)).map Prod.snd =
      rustDiscs vs :=
  List.map_snd_zip _ _
    (by simp [rustDiscs, discsFrom_length])

/-- Distinctness of the resolved discriminants transfers to the table. -/
theorem entries_castTo_nodup (vs : List Variant) (r : ReprType)
    (hnodup : ((rustDiscs vs).map (castTo r)).Nodup) :
    (((vs.map Variant.ident).zip (rustDiscs vs)).map
      (fun p => castTo r p.2)).Nodup := by
  have h1 : ((vs.map Variant.ident).zip (rustDiscs vs)).map
      (fun p => castTo r p.2) =
      (((vs.map Variant.ident).zip (rustDiscs vs)).map Prod.snd).map
        (castTo r) := by
    rw [List.map_map]
    rfl
  rw [h1, entries_map_snd]
  exact hnodup

/-- Claim C5.  Round trip for a successful run under a concrete
representation: assuming well-formed input — pairwise-distinct resolved
discriminants — the emitted match sends the i-th variant's resolved
discriminant to the i-th variant's identifier, and distinct variants have
distinct resolved discriminants, so each tag is hit exactly once. -/
theorem round_trip (name : String) (attrs : List Attr) (vs : List Variant)
    (r : ReprType) (g : GeneratedConversion)
    (hok : derive ⟨name, attrs, .enum vs⟩ = .ok g)
    (hmode : g.mode = some r)
    (hnodup : ((rustDiscs vs).map (castTo r)).Nodup) :
    (∀ i, i < vs.length →
      firstMatch r g.entries (castTo r ((rustDiscs vs).getD i 0)) =
        some ((vs.getD i dfltVariant).ident)) ∧
    (∀ i j, i < vs.length → j < vs.length →
      castTo r ((rustDiscs vs).getD i 0) =
        castTo r ((rustDiscs vs).getD j 0) → i = j) := by
  have hg := derive_ok_inv name attrs vs g hok
  subst hg
  constructor
  · intro i hi
    have hfm := firstMatch_getD r ((vs.map Variant.ident).zip (rustDiscs vs)) i
      (by rw [entries_length]; exact hi) (entries_castTo_nodup vs r hnodup)
    rw [entries_getD vs i hi] at hfm
    exact hfm
  · intro i j hi hj h
    have hleni : i < ((rustDiscs vs).map (castTo r)).length := by
      rw [List.length_map, rustDiscs, discsFrom_length]; exact hi
    have hlenj : j < ((rustDiscs vs).map (castTo r)).length := by
      rw [List.length_map, rustDiscs, discsFrom_length]; exact hj
    refine nodup_getD_inj _ (castTo r 0) hnodup i j hleni hlenj ?_
    rw [getD_map_of_lt (castTo r) (rustDiscs vs) i 0 (castTo r 0)
        (by rw [rustDiscs, discsFrom_length]; exact hi),
      getD_map_of_lt (castTo r) (rustDiscs vs) j 0 (castTo r 0)
        (by rw [rustDiscs, discsFrom_length]; exact hj)]
    exact h

/-- Claim C5, witness: for `enum E { A, B }` the resolved discriminant of
`A` maps back to `A`. -/
theorem round_trip_inst :
    firstMatch ReprType.i64 gAB.entries
      (castTo ReprType.i64 ((rustDiscs vsAB).getD 0 0)) =
      some ((vsAB.getD 0 dfltVariant).ident) :=
  (round_trip "E" [] vsAB ReprType.i64 gAB (by decide) rfl (by decide)).1
    0 (by decide)

/-- For an all-default run of variants numbered from `a`, the emitted match
sends `a + i` to the i-th variant, provided the cast into the resolved
representation fixes the whole occupied range. -/
theorem firstMatch_consec_some (r : ReprType) (vs : List Variant) (a : Int)
    (i : Nat) (hi : i < vs.length)
    (hnone : ∀ v ∈ vs, v.disc = none)
    (hid : ∀ d : Int, a ≤ d → d < a + (vs.length : Int) → castTo r d = d) :
    firstMatch r ((vs.map Variant.ident).zip (discsFrom a vs)) (a + (i : Int)) =
      some ((vs.getD i dfltVariant).ident) := by
  induction vs generalizing a i with
  | nil => simp at hi
  | cons v rest ih =>
    have hv : v.disc = none := hnone v (by simp)
    have hhead : castTo r a = a := by
      refine hid a (le_refl a) ?_
      simp only [List.length_cons]
      push_cast
      omega
    cases i with
    | zero =>
      simp [discsFrom, hv, List.zip_cons_cons, firstMatch, hhead]
    | succ i =>
      have hval : a + (((i : Nat) + 1 : Nat) : Int) = a + 1 + (i : Int) := by
        push_cast
        ring
      have hne : castTo r a ≠ a + (((i : Nat) + 1 : Nat) : Int) := by
        rw [hhead, hval]
        omega
      simp only [discsFrom, hv, Option.getD_none, List.map_cons,
        List.zip_cons_cons, firstMatch, List.getD_cons_succ]
      rw [if_neg hne, hval]
      refine ih (a + 1) i (by simpa using hi)
        (fun w hw => hnone w (by simp [hw])) ?_
      intro d h0 h1
      refine hid d (by omega) ?_
      simp only [List.length_cons]
      push_cast
      push_cast at h1
      omega

/-- For an all-default run of variants numbered from `a`, any scrutinee
outside the occupied range falls through to the final arm. -/
theorem firstMatch_consec_none (r : ReprType) (vs : List Variant) (a : Int)
    (z : Int) (hnone : ∀ v ∈ vs, v.disc = none)
    (hid : ∀ d : Int, a ≤ d → d < a + (vs.length : Int) → castTo r d = d)
    (hz : z < a ∨ a + (vs.length : Int) ≤ z) :
    firstMatch r ((vs.map Variant.ident).zip (discsFrom a vs)) z = none := by
  induction vs generalizing a with
  | nil => rfl
  | cons v rest ih =>
    have hv : v.disc = none := hnone v (by simp)
    have hhead : castTo r a = a := by
      refine hid a (le_refl a) ?_
      simp only [List.length_cons]
      push_cast
      omega
    have hne : castTo r a ≠ z := by
      rw [hhead]
      rcases hz with h | h
      · omega
      · simp only [List.length_cons] at h
        push_cast at h
        omega
    simp only [discsFrom, hv, Option.getD_none, List.map_cons,
      List.zip_cons_cons, firstMatch, if_neg hne]
    refine ih (a + 1) (fun w hw => hnone w (by simp [hw])) ?_ ?_
    · intro d h0 h1
      refine hid d (by omega) ?_
      simp only [List.length_cons]
      push_cast
      push_cast at h1
      omega
    · rcases hz with h | h
      · omega
      · simp only [List.length_cons] at h
        push_cast at h
        omega

/-- Claim C6.  For an enum with only unit variants and no explicit
discriminants, under any concrete resolved representation wide enough for
the variant count: generation succeeds, the emitted match sends `i` to the
i-th variant in declaration order for every `i` in `[0, variant count)`,
and every integer outside that range falls through to the final `none`
arm. -/
theorem sequential_enum_dispatch (name : String) (attrs : List Attr)
    (vs : List Variant) (r : ReprType)
    (hmode : resolveRepr attrs = some r)
    (hunit : ∀ v ∈ vs, v.fields = Payload.unit)
    (hnone : ∀ v ∈ vs, v.disc = none)
    (hsz : (vs.length : Int) ≤ 2 ^ (width r - 1)) :
    derive ⟨name, attrs, .enum vs⟩ =
      .ok ⟨name, some r, (vs.map Variant.ident).zip (rustDiscs vs)⟩ ∧
    (∀ i : Nat, i < vs.length →
      firstMatch r ((vs.map Variant.ident).zip (rustDiscs vs)) ((i : Nat) : Int) =
        some ((vs.getD i dfltVariant).ident)) ∧
    (∀ z : Int, (z < 0 ∨ (vs.length : Int) ≤ z) →
      firstMatch r ((vs.map Variant.ident).zip (rustDiscs vs)) z = none) := by
  have hfind : vs.find? hasData = none := by
    rw [List.find?_eq_none]
    intro v hv
    simp [hasData, hunit v hv]
  have hid : ∀ d : Int, (0 : Int) ≤ d → d < 0 + (vs.length : Int) →
      castTo r d = d := by
    intro d h0 h1
    exact castTo_of_nonneg_lt r d h0 (by omega)
  refine ⟨?_, ?_, ?_⟩
  · rw [derive_ok_of_no_payload name attrs vs hfind, hmode]
  · intro i hi
    have h := firstMatch_consec_some r vs 0 i hi hnone hid
    rw [rustDiscs]
    simpa using h
  · intro z hz
    have h := firstMatch_consec_none r vs 0 z hnone hid (by omega)
    rw [rustDiscs]
    exact h

/-- Claim C6, witness: `enum E { A, B }` under the default `i64`
representation maps 1 to `B` and 5 to no match. -/
theorem sequential_enum_dispatch_inst :
    firstMatch ReprType.i64 ((vsAB.map Variant.ident).zip (rustDiscs vsAB))
      (((1 : Nat) : Int)) = some ((vsAB.getD 1 dfltVariant).ident) ∧
    firstMatch ReprType.i64 ((vsAB.map Variant.ident).zip (rustDiscs vsAB))
      5 = none :=
  ⟨(sequential_enum_dispatch "E" [] vsAB ReprType.i64 rfl (by decide)
      (by decide) (by decide)).2.1 1 (by decide),
   (sequential_enum_dispatch "E" [] vsAB ReprType.i64 rfl (by decide)
      (by decide) (by decide)).2.2 5 (by decide)⟩

/-- Claim C7.  For a successful run under a concrete representation, a
variant with explicit discriminant `k` (assuming well-formed input: the
resolved discriminants are pairwise distinct and `k` is a fixed point of
the cast) maps back from `k`, and the variants following it without
explicit discriminants resume numbering from `k + 1`: the one `l` places
later receives `k + l`, not its declaration-order index. -/
theorem explicit_discriminant_resume (name : String) (attrs : List Attr)
    (vs : List Variant) (r : ReprType) (g : GeneratedConversion)
    (j : Nat) (k : Int)
    (hok : derive ⟨name, attrs, .enum vs⟩ = .ok g)
    (hmode : g.mode = some r)
    (hj : j < vs.length)
    (hk : (vs.getD j dfltVariant).disc = some k)
    (hnodup : ((rustDiscs vs).map (castTo r)).Nodup)
    (hcast : castTo r k = k) :
    firstMatch r g.entries k = some ((vs.getD j dfltVariant).ident) ∧
    (∀ l : Nat, 0 < l → j + l < vs.length →
      (∀ t : Nat, 0 < t → t ≤ l → (vs.getD (j + t) dfltVariant).disc = none) →
      (rustDiscs vs).getD (j + l) 0 = k + l) := by
  constructor
  · have hg := derive_ok_inv name attrs vs g hok
    subst hg
    have hdj : (rustDiscs vs).getD j 0 = k :=
      discsFrom_getD_explicit vs 0 j k hj hk
    have hfm := firstMatch_getD r ((vs.map Variant.ident).zip (rustDiscs vs)) j
      (by rw [entries_length]; exact hj) (entries_castTo_nodup vs r hnodup)
    rw [entries_getD vs j hj] at hfm
    simp only [hdj, hcast] at hfm
    exact hfm
  · intro l hl hjl hrun
    exact discsFrom_getD_resume j vs 0 l k hjl hk hrun

/-- Claim C7, witness: for `enum E { P, Q = 5, R }`, `n(5) = Some(Q)` and
`R` receives discriminant 6. -/
theorem explicit_discriminant_resume_inst :
    firstMatch ReprType.i64
      [("P", 0), ("Q", 5), ("R", 6)] 5 = some "Q" ∧
    (rustDiscs [⟨"P", .unit, none⟩, ⟨"Q", .unit, some 5⟩, ⟨"R", .unit, none⟩]).getD
      (1 + 1) 0 = 5 + ((1 : Nat) : Int) := by
  have h := explicit_discriminant_resume "E" []
    [⟨"P", .unit, none⟩, ⟨"Q", .unit, some 5⟩, ⟨"R", .unit, none⟩]
    ReprType.i64 ⟨"E", some .i64, [("P", 0), ("Q", 5), ("R", 6)]⟩ 1 5
    (by decide) rfl (by decide) (by decide) (by decide) (by decide)
  refine ⟨h.1, ?_⟩
  exact h.2 1 (by decide) (by decide)
    (fun t ht hle => by
      have h3 : t = 1 := by omega
      subst h3
      rfl)

/-- Claim C9.  Generation is deterministic — it is a pure function of the
input, so equal inputs give equal outputs — and emission order follows
declaration order: the table's identifiers project to the variant
identifiers in declaration order and its values to the discriminant list
in the same order, with no reordering. -/
theorem generation_deterministic (name : String) (attrs : List Attr)
    (vs : List Variant) (g : GeneratedConversion)
    (hok : derive ⟨name, attrs, .enum vs⟩ = .ok g) :
    (∀ d : DeriveInput, d = ⟨name, attrs, .enum vs⟩ → derive d = .ok g) ∧
    g.entries.map Prod.fst = vs.map Variant.ident ∧
    g.entries.map Prod.snd = rustDiscs vs := by
  have hg := derive_ok_inv name attrs vs g hok
  subst hg
  exact ⟨fun d hd => by rw [hd]; exact hok, entries_map_fst vs,
    entries_map_snd vs⟩

/-- Claim C9, witness: for `enum E { A, B }` the emitted table lists `A`
then `B` with values 0 then 1. -/
theorem generation_deterministic_inst :
    gAB.entries.map Prod.fst = vsAB.map Variant.ident ∧
    gAB.entries.map Prod.snd = rustDiscs vsAB :=
  (generation_deterministic "E" [] vsAB gAB (by decide)).2

/-- Claim C10.  An enum with zero variants is not rejected: `derive`
succeeds with an empty dispatch table, and the emitted match — whose only
arm is the fallback — returns `none` on every input value. -/
theorem empty_enum_total_none (name : String) (attrs : List Attr) :
    derive ⟨name, attrs, .enum []⟩ = .ok ⟨name, resolveRepr attrs, []⟩ ∧
    (∀ r : ReprType, ∀ z : Int, firstMatch r [] z = none) :=
  ⟨rfl, fun _ _ => rfl⟩

end Enumn
